import Mathlib

/-!
Shallow embedding of the in-browser BTC/USD forecasting arithmetic from
`src/frontend/components/BrowserForecast.tsx` and `src/unnamed/part_000`
(the second forecast component).  JavaScript double arithmetic is embedded
into `ℝ`; a JavaScript value that may be non-finite at an interface boundary
is embedded as `Option ℝ` (`none` = NaN / ±Infinity).  The unseeded
`Math.random`-based Box–Muller draws are embedded as an explicit stream of
real-valued draws passed to the simulation functions.
-/

noncomputable section

open Real

/-- Embedding of `mean` (BrowserForecast.tsx lines 730-733):
`if (!xs.length) return 0; return xs.reduce((a,b)=>a+b,0)/xs.length`. -/
def jsMean (xs : List ℝ) : ℝ :=
  if xs.length = 0 then 0 else xs.sum / xs.length

/-- Embedding of `std` (BrowserForecast.tsx lines 735-740): sample standard
deviation with divisor `n-1`, returning 0 for fewer than two points. -/
def jsStd (xs : List ℝ) : ℝ :=
  if xs.length < 2 then 0
  else
    Real.sqrt ((xs.map (fun x => (x - jsMean xs) * (x - jsMean xs))).sum /
      ((xs.length : ℝ) - 1))

/-- One step of the log-return computation in `estimateParams`
(BrowserForecast.tsx lines 434-437): `r = Math.log(cur/prev)` kept only when
`Number.isFinite(r)`.  Over the reals, `Math.log(cur/prev)` is finite exactly
when the ratio is strictly positive (ratio `NaN`, `±Infinity`, `0` or negative
all give a non-finite logarithm), so the kept value is `some (log (cur/prev))`
exactly when `0 < cur / prev`. -/
def jsLogRet (prev cur : ℝ) : Option ℝ :=
  if 0 < cur / prev then some (Real.log (cur / prev)) else none

/-- The filtered consecutive log returns of `estimateParams`
(BrowserForecast.tsx lines 433-437). -/
def logReturns (prices : List ℝ) : List ℝ :=
  (prices.zip prices.tail).filterMap (fun pc => jsLogRet pc.1 pc.2)

/-- The unfiltered consecutive log returns
`prices.slice(1).map((p,i)=>Math.log(p/prices[i]))` used by
`calculateRiskMetrics`, `detectRegime` and the toy models
(BrowserForecast.tsx line 649 and elsewhere). -/
def rawLogReturns (prices : List ℝ) : List ℝ :=
  (prices.zip prices.tail).map (fun pc => Real.log (pc.2 / pc.1))

/-- Result record of `estimateParams`. -/
structure GBMParams where
  lastPrice : ℝ
  mu : ℝ
  sigma : ℝ

/-- Embedding of `estimateParams` (BrowserForecast.tsx lines 431-441). -/
def estimateParams (prices : List ℝ) : GBMParams :=
  { lastPrice := prices.getLastD 0
    mu := jsMean (logReturns prices)
    sigma := jsStd (logReturns prices) }

/-- Embedding of the data-validation prefix of `onClick`
(BrowserForecast.tsx lines 63-66): the raw API values (possibly non-finite,
hence `Option ℝ`) are filtered to the finite ones; fewer than 60 survivors
raise the error `"Not enough data from API"`, otherwise parameter estimation
runs on the filtered list. -/
def forecastParams (raw : List (Option ℝ)) : Except String GBMParams :=
  let prices := raw.filterMap id
  if prices.length < 60 then Except.error "Not enough data from API"
  else Except.ok (estimateParams prices)

/-- Embedding of JavaScript `Math.round` (round half towards positive
infinity) as used in `runMonteCarlo` (line 455). -/
def jsRound (x : ℝ) : ℤ := ⌊x + 1 / 2⌋

/-- The step count `Math.max(1, Math.round(h*24))` of `runMonteCarlo`
(BrowserForecast.tsx line 455). -/
def mcSteps (h : ℝ) : ℕ := max 1 (jsRound (h * 24)).toNat

/-- Log price of one simulated path of `runMonteCarlo` after `t` steps
(BrowserForecast.tsx lines 461-465): starts at `Math.log(s0)` and each step
adds `(mu - 0.5σ²)·dt + σ·sqrt(dt)·Z`, with `Z` the Box–Muller draw for that
step, here an explicit stream `Z : ℕ → ℝ`. -/
def mcPathLog (s0 mu sigma dt : ℝ) (Z : ℕ → ℝ) : ℕ → ℝ
  | 0 => Real.log s0
  | t + 1 =>
      mcPathLog s0 mu sigma dt Z t +
        (mu - 0.5 * sigma * sigma) * dt + sigma * Real.sqrt dt * Z t

/-- Hit flag of one simulated path of `runMonteCarlo` after `t` steps
(BrowserForecast.tsx lines 462-468): `if (!hit && price >= target) hit=true`
inside the step loop, i.e. the flag is the OR over the post-step prices of
`price >= target`; the pre-loop price `s0` is never tested. -/
def mcPathHit (s0 mu sigma dt target : ℝ) (Z : ℕ → ℝ) : ℕ → Bool
  | 0 => false
  | t + 1 =>
      mcPathHit s0 mu sigma dt target Z t ||
        decide (target ≤ Real.exp (mcPathLog s0 mu sigma dt Z (t + 1)))

/-- One horizon of `runMonteCarlo` (BrowserForecast.tsx lines 454-476):
mean terminal price over the paths, and fraction of paths whose hit flag is
set.  `Z p` is the draw stream of path `p`. -/
def mcHorizon (s0 mu sigma h target : ℝ) (paths : ℕ) (Z : ℕ → ℕ → ℝ) :
    ℝ × ℝ :=
  let steps := mcSteps h
  let dt := h / (steps : ℝ)
  let finalSum :=
    ((List.range paths).map
      (fun p => Real.exp (mcPathLog s0 mu sigma dt (Z p) steps))).sum
  let hitCount :=
    ((List.range paths).filter
      (fun p => mcPathHit s0 mu sigma dt target (Z p) steps)).length
  (finalSum / (paths : ℝ), (hitCount : ℝ) / (paths : ℝ))

/-- Embedding of `runMonteCarlo` (BrowserForecast.tsx lines 443-479): per
horizon, the pair lists `forecasts` (mean terminal price) and `hitProb`
(fraction of hitting paths).  `Z i p` is the draw stream of path `p` for the
`i`-th horizon. -/
def runMonteCarlo (s0 mu sigma : ℝ) (horizons : List ℝ) (target : ℝ)
    (paths : ℕ) (Z : ℕ → ℕ → ℕ → ℝ) :
    List (ℝ × ℝ) × List (ℝ × ℝ) :=
  (horizons.enum.map
      (fun ih => (ih.2, (mcHorizon s0 mu sigma ih.2 target paths (Z ih.1)).1)),
   horizons.enum.map
      (fun ih => (ih.2, (mcHorizon s0 mu sigma ih.2 target paths (Z ih.1)).2)))

/-- Result record of `calculateRiskMetrics`. -/
structure RiskMetrics where
  sharpe : ℝ
  sortino : ℝ
  max_drawdown : ℝ
  calmar : ℝ

/-- The running-peak drawdown loop of `calculateRiskMetrics`
(BrowserForecast.tsx lines 661-668): `peak` starts at `prices[0]`, every
price (the first included) updates the peak and then the minimum of
`(p-peak)/peak`. -/
def maxDrawdown (prices : List ℝ) : ℝ :=
  (prices.foldl
    (fun st p =>
      let peak := if p > st.1 then p else st.1
      let dd := (p - peak) / peak
      (peak, if dd < st.2 then dd else st.2))
    (prices.headD 0, 0)).2

/-- Embedding of `calculateRiskMetrics` (BrowserForecast.tsx lines 648-675).
JavaScript `std(negReturns) || stdReturn` falls back exactly when
`std(negReturns)` is falsy, i.e. equal to 0 in the real embedding. -/
def calculateRiskMetrics (prices : List ℝ) : RiskMetrics :=
  let returns := rawLogReturns prices
  let avgReturn := jsMean returns
  let stdReturn := jsStd returns
  let sharpe := if stdReturn > 0 then avgReturn / stdReturn * Real.sqrt 365 else 0
  let negReturns := returns.filter (fun r => decide (r < 0))
  let downsideStd := if jsStd negReturns = 0 then stdReturn else jsStd negReturns
  let sortino := if downsideStd > 0 then avgReturn / downsideStd * Real.sqrt 365 else 0
  let maxDD := maxDrawdown prices
  let annualizedReturn := avgReturn * 365
  let calmar := if |maxDD| > 0 then annualizedReturn / |maxDD| else 0
  { sharpe := sharpe, sortino := sortino, max_drawdown := maxDD, calmar := calmar }

/-- The toy-model outputs consumed by `blendForecasts`: the ARIMA and Prophet
stand-ins are maps keyed by horizon (used at 1, 7, 30), LSTM is a single
value, `garch_vol` a volatility list (unused by the blend). -/
structure ModelForecasts where
  arima : ℕ → ℝ
  prophet : ℕ → ℝ
  lstm : ℝ
  garch_vol : List ℝ

/-- Weight triple of `blendForecasts`. -/
structure BlendWeights where
  arima : ℝ
  prophet : ℝ
  lstm : ℝ

/-- The regime-based weight selection of `blendForecasts`
(BrowserForecast.tsx lines 682-689): `"bull"` and `"bear"` get their fixed
triples, every other regime string the sideways triple. -/
def regimeWeights (regime : String) : BlendWeights :=
  if regime = "bull" then { arima := 0.25, prophet := 0.35, lstm := 0.40 }
  else if regime = "bear" then { arima := 0.40, prophet := 0.35, lstm := 0.25 }
  else { arima := 0.35, prophet := 0.35, lstm := 0.30 }

/-- Result record of `blendForecasts` keyed `1h`, `1d`, `1w`, `1m`. -/
structure Blended where
  h1 : ℝ
  d1 : ℝ
  w1 : ℝ
  m1 : ℝ

/-- Embedding of `blendForecasts` (BrowserForecast.tsx lines 677-715). -/
def blendForecasts (mf : ModelForecasts) (regime : String) : Blended :=
  let w := regimeWeights regime
  let blend1d := mf.arima 1 * w.arima + mf.prophet 1 * w.prophet + mf.lstm * w.lstm
  let blend1w := mf.arima 7 * w.arima + mf.prophet 7 * w.prophet + mf.lstm * w.lstm
  let blend1m := mf.arima 30 * w.arima + mf.prophet 30 * w.prophet + mf.lstm * w.lstm
  let blend1h := mf.arima 1 - (mf.arima 1 - mf.lstm) * (23 / 24)
  { h1 := blend1h, d1 := blend1d, w1 := blend1w, m1 := blend1m }

/-- One row of the daily projection produced by `generateDailyProjection`
(BrowserForecast.tsx lines 481-510).  The wall-clock `date` string is a pure
formatting of `day` and is not modelled. -/
structure ProjEntry where
  day : ℕ
  price : ℝ
  lower : ℝ
  upper : ℝ

/-- The day-`d` row of `generateDailyProjection`
(BrowserForecast.tsx lines 485-506). -/
def projEntry (s0 mu sigma : ℝ) (d : ℕ) : ProjEntry :=
  let t : ℝ := d
  let expectedLogPrice := Real.log s0 + (mu - 0.5 * sigma * sigma) * t
  let priceVariance := sigma * sigma * t
  let priceStd := Real.sqrt priceVariance
  { day := d
    price := Real.exp (expectedLogPrice + 0.5 * priceVariance)
    lower := Real.exp (expectedLogPrice - 1.96 * priceStd)
    upper := Real.exp (expectedLogPrice + 1.96 * priceStd) }

/-- Embedding of `generateDailyProjection` (BrowserForecast.tsx lines
481-510): rows for days `1..days` in increasing order. -/
def generateDailyProjection (s0 mu sigma : ℝ) (days : ℕ) : List ProjEntry :=
  (List.range days).map (fun i => projEntry s0 mu sigma (i + 1))

/-- Log price of one path of `predictTargetDate`
(src/unnamed/part_000 lines 484-489) after `d` steps: daily steps, so the
increment is `(mu - 0.5σ²) + σ·Z`. -/
def tdPathLog (s0 mu sigma : ℝ) (Z : ℕ → ℝ) : ℕ → ℝ
  | 0 => Real.log s0
  | d + 1 => tdPathLog s0 mu sigma Z d + (mu - 0.5 * sigma * sigma) + sigma * Z d

/-- Hit flag of one path of `predictTargetDate` after `d` daily steps
(src/unnamed/part_000 lines 486-493): `if (price >= target) { hit = true;
break }` inside the day loop — the `break` only stops consuming draws, the
flag equals the OR over all post-step prices. -/
def tdPathHit (s0 mu sigma target : ℝ) (Z : ℕ → ℝ) : ℕ → Bool
  | 0 => false
  | d + 1 =>
      tdPathHit s0 mu sigma target Z d ||
        decide (target ≤ Real.exp (tdPathLog s0 mu sigma Z (d + 1)))

/-- Result record of `predictTargetDate`.  The source's `targetDate` string
is a pure formatting of the crossing day offset and is embedded as that day
number. -/
structure TargetPrediction where
  targetDate : Option ℕ
  daysToTarget : Option ℕ
  probability : ℝ

/-- Embedding of `predictTargetDate` (src/unnamed/part_000 lines 461-503):
`projection.find(p => p.price >= target)` selects the first listed row whose
expected price reaches the target; with no such row the function returns
null date, null days and probability 0 without simulating; otherwise a
10000-path daily Monte Carlo counts the paths that touch the target within
the crossing day count. -/
def predictTargetDate (projection : List ProjEntry) (target currentPrice mu sigma : ℝ)
    (Z : ℕ → ℕ → ℝ) : TargetPrediction :=
  match projection.find? (fun p => decide (target ≤ p.price)) with
  | none => { targetDate := none, daysToTarget := none, probability := 0 }
  | some crossing =>
      let t := crossing.day
      let paths : ℕ := 10000
      let hitCount :=
        ((List.range paths).filter
          (fun i => tdPathHit currentPrice mu sigma target (Z i) t)).length
      { targetDate := some crossing.day
        daysToTarget := some crossing.day
        probability := (hitCount : ℝ) / (paths : ℝ) }

/-- The regime weight triple always sums to 1. -/
theorem regimeWeights_sum (regime : String) :
    (regimeWeights regime).arima + (regimeWeights regime).prophet +
      (regimeWeights regime).lstm = 1 := by
  unfold regimeWeights
  by_cases h1 : regime = "bull"
  · simp [h1]
    norm_num
  · by_cases h2 : regime = "bear"
    · simp [h1, h2]
      norm_num
    · simp [h1, h2]
      norm_num

/-- Every regime weight is nonnegative. -/
theorem regimeWeights_nonneg (regime : String) :
    0 ≤ (regimeWeights regime).arima ∧ 0 ≤ (regimeWeights regime).prophet ∧
      0 ≤ (regimeWeights regime).lstm := by
  unfold regimeWeights
  by_cases h1 : regime = "bull"
  · simp [h1]
    norm_num
  · by_cases h2 : regime = "bear"
    · simp [h1, h2]
      norm_num
    · simp [h1, h2]
      norm_num

/-- A convex combination of three reals lies between their minimum and
maximum. -/
theorem convex3_bounds (a b c wa wb wc : ℝ) (ha : 0 ≤ wa) (hb : 0 ≤ wb)
    (hc : 0 ≤ wc) (hsum : wa + wb + wc = 1) :
    min a (min b c) ≤ a * wa + b * wb + c * wc ∧
    a * wa + b * wb + c * wc ≤ max a (max b c) := by
  have h1 : min a (min b c) ≤ a := min_le_left _ _
  have h2 : min a (min b c) ≤ b := le_trans (min_le_right _ _) (min_le_left _ _)
  have h3 : min a (min b c) ≤ c := le_trans (min_le_right _ _) (min_le_right _ _)
  have h4 : a ≤ max a (max b c) := le_max_left _ _
  have h5 : b ≤ max a (max b c) := le_trans (le_max_left _ _) (le_max_right _ _)
  have h6 : c ≤ max a (max b c) := le_trans (le_max_right _ _) (le_max_right _ _)
  have hmin : min a (min b c) =
      min a (min b c) * wa + min a (min b c) * wb + min a (min b c) * wc := by
    calc min a (min b c) = min a (min b c) * 1 := (mul_one _).symm
      _ = min a (min b c) * (wa + wb + wc) := by rw [hsum]
      _ = min a (min b c) * wa + min a (min b c) * wb + min a (min b c) * wc := by
          ring
  have hmax : max a (max b c) =
      max a (max b c) * wa + max a (max b c) * wb + max a (max b c) * wc := by
    calc max a (max b c) = max a (max b c) * 1 := (mul_one _).symm
      _ = max a (max b c) * (wa + wb + wc) := by rw [hsum]
      _ = max a (max b c) * wa + max a (max b c) * wb + max a (max b c) * wc := by
          ring
  constructor
  · rw [hmin]
    exact add_le_add (add_le_add (mul_le_mul_of_nonneg_right h1 ha)
      (mul_le_mul_of_nonneg_right h2 hb)) (mul_le_mul_of_nonneg_right h3 hc)
  · rw [hmax]
    exact add_le_add (add_le_add (mul_le_mul_of_nonneg_right h4 ha)
      (mul_le_mul_of_nonneg_right h5 hb)) (mul_le_mul_of_nonneg_right h6 hc)

/-- Claim C5: for every regime the blend weight triple sums to 1, and each
of the 1-day, 1-week, 1-month blended forecasts is a convex combination of
the ARIMA, Prophet and LSTM stand-in outputs, hence lies between the
minimum and the maximum of those three values. -/
theorem blendForecasts_convex (mf : ModelForecasts) (regime : String) :
    ((regimeWeights regime).arima + (regimeWeights regime).prophet +
      (regimeWeights regime).lstm = 1) ∧
    (min (mf.arima 1) (min (mf.prophet 1) mf.lstm) ≤ (blendForecasts mf regime).d1 ∧
      (blendForecasts mf regime).d1 ≤ max (mf.arima 1) (max (mf.prophet 1) mf.lstm)) ∧
    (min (mf.arima 7) (min (mf.prophet 7) mf.lstm) ≤ (blendForecasts mf regime).w1 ∧
      (blendForecasts mf regime).w1 ≤ max (mf.arima 7) (max (mf.prophet 7) mf.lstm)) ∧
    (min (mf.arima 30) (min (mf.prophet 30) mf.lstm) ≤ (blendForecasts mf regime).m1 ∧
      (blendForecasts mf regime).m1 ≤ max (mf.arima 30) (max (mf.prophet 30) mf.lstm)) := by
  obtain ⟨ha, hb, hc⟩ := regimeWeights_nonneg regime
  refine ⟨regimeWeights_sum regime, ?_, ?_, ?_⟩ <;>
    · simp only [blendForecasts]
      exact convex3_bounds _ _ _ _ _ _ ha hb hc (regimeWeights_sum regime)

/-- Claim C10: `blendForecasts` is total in its regime argument — any regime
string other than exactly `"bull"` or `"bear"` produces the same result as
the sideways regime (weights 0.35/0.35/0.30) — and every call uses a weight
triple summing to 1. -/
theorem blendForecasts_default_sideways :
    (∀ (mf : ModelForecasts) (regime : String), regime ≠ "bull" →
      regime ≠ "bear" →
      blendForecasts mf regime = blendForecasts mf "sideways") ∧
    ∀ regime : String,
      (regimeWeights regime).arima + (regimeWeights regime).prophet +
        (regimeWeights regime).lstm = 1 := by
  constructor
  · intro mf regime h1 h2
    have hw : regimeWeights regime = regimeWeights "sideways" := by
      unfold regimeWeights
      simp [h1, h2]
    simp [blendForecasts, hw]
  · exact regimeWeights_sum

/-- Witness for claim C10 at the regime string `"unknown"`. -/
theorem blendForecasts_default_sideways_witness :
    blendForecasts ⟨fun _ => 0, fun _ => 0, 0, []⟩ "unknown" =
      blendForecasts ⟨fun _ => 0, fun _ => 0, 0, []⟩ "sideways" :=
  blendForecasts_default_sideways.1 _ "unknown" (by decide) (by decide)

/-- Claim C3 (amended): the Sortino divisor is the sample standard deviation
of the negative returns whenever that standard deviation is nonzero; the
overall standard deviation is substituted exactly when the standard
deviation of the negative returns is 0 — which happens not only with no
negative returns but also with exactly one negative return (or several equal
ones). -/
theorem calculateRiskMetrics_sortino_divisor (prices : List ℝ) :
    (0 < jsStd ((rawLogReturns prices).filter (fun r => decide (r < 0))) →
      (calculateRiskMetrics prices).sortino =
        jsMean (rawLogReturns prices) /
          jsStd ((rawLogReturns prices).filter (fun r => decide (r < 0))) *
          Real.sqrt 365) ∧
    (jsStd ((rawLogReturns prices).filter (fun r => decide (r < 0))) = 0 →
      0 < jsStd (rawLogReturns prices) →
      (calculateRiskMetrics prices).sortino =
        jsMean (rawLogReturns prices) / jsStd (rawLogReturns prices) *
          Real.sqrt 365) := by
  constructor
  · intro h
    simp only [calculateRiskMetrics]
    rw [if_neg (ne_of_gt h), if_pos h]
  · intro h0 hstd
    simp only [calculateRiskMetrics]
    rw [if_pos h0, if_pos hstd]

/-- The log returns of the demo series `[e, 1, e, e²]` are `[-1, 1, 1]`. -/
theorem rawLogReturns_demo :
    rawLogReturns [Real.exp 1, 1, Real.exp 1, Real.exp 2] = [-1, 1, 1] := by
  simp [rawLogReturns, Real.log_div, Real.exp_ne_zero, Real.log_exp,
    Real.log_one]
  norm_num

/-- The single negative return of the demo series. -/
theorem filter_neg_demo :
    ([(-1 : ℝ), 1, 1].filter (fun r => decide (r < 0))) = [-1] := by
  norm_num [List.filter]

/-- A one-element list has sample standard deviation 0. -/
theorem jsStd_single : jsStd [(-1 : ℝ)] = 0 := by
  norm_num [jsStd]

/-- The demo returns have strictly positive overall standard deviation. -/
theorem jsStd_demo_pos : 0 < jsStd [(-1 : ℝ), 1, 1] := by
  rw [jsStd]
  norm_num [jsMean]


/-- The demo returns have mean `1/3`. -/
theorem jsMean_demo : jsMean [(-1 : ℝ), 1, 1] = 1 / 3 := by
  norm_num [jsMean]

/-- Claim C3 counterexample: the demo series `[e, 1, e, e²]` has one
negative return, so the sample standard deviation of the negative returns is
0 and the claimed formula (divide by the downside std whenever a negative
return exists) would force Sortino = 0; the code instead substitutes the
overall standard deviation and returns a strictly positive Sortino. -/
theorem calculateRiskMetrics_sortino_cex :
    ((rawLogReturns [Real.exp 1, 1, Real.exp 1, Real.exp 2]).filter
        (fun r => decide (r < 0)) ≠ []) ∧
    jsStd ((rawLogReturns [Real.exp 1, 1, Real.exp 1, Real.exp 2]).filter
        (fun r => decide (r < 0))) = 0 ∧
    0 < (calculateRiskMetrics [Real.exp 1, 1, Real.exp 1, Real.exp 2]).sortino := by
  refine ⟨?_, ?_, ?_⟩
  · rw [rawLogReturns_demo, filter_neg_demo]
    simp
  · rw [rawLogReturns_demo, filter_neg_demo]
    exact jsStd_single
  · simp only [calculateRiskMetrics, rawLogReturns_demo, filter_neg_demo]
    rw [if_pos jsStd_single, if_pos jsStd_demo_pos, jsMean_demo]
    exact mul_pos (div_pos (by norm_num) jsStd_demo_pos)
      (Real.sqrt_pos.mpr (by norm_num))

/-- Witness for the amended claim C3 at the demo series `[e, 1, e, e²]`. -/
theorem calculateRiskMetrics_sortino_witness :
    (calculateRiskMetrics [Real.exp 1, 1, Real.exp 1, Real.exp 2]).sortino =
      jsMean (rawLogReturns [Real.exp 1, 1, Real.exp 1, Real.exp 2]) /
        jsStd (rawLogReturns [Real.exp 1, 1, Real.exp 1, Real.exp 2]) *
        Real.sqrt 365 := by
  refine (calculateRiskMetrics_sortino_divisor _).2 ?_ ?_
  · rw [rawLogReturns_demo, filter_neg_demo]
    exact jsStd_single
  · rw [rawLogReturns_demo]
    exact jsStd_demo_pos

/-- Invariant of the drawdown loop: starting from state `(q, 0)` and folding
a non-decreasing list whose head dominates `q` never records a negative
drawdown. -/
theorem maxDrawdown_fold_aux (l : List ℝ) : ∀ q : ℝ,
    List.Chain' (· ≤ ·) (q :: l) →
    (l.foldl
      (fun st p =>
        let peak := if p > st.1 then p else st.1
        let dd := (p - peak) / peak
        (peak, if dd < st.2 then dd else st.2)) (q, 0)) = (l.getLastD q, 0) := by
  induction l with
  | nil => intro q _; rfl
  | cons p l ih =>
      intro q hchain
      rw [List.chain'_cons] at hchain
      rw [List.foldl_cons]
      by_cases hpq : p > q
      · simp only [hpq, gt_iff_lt, if_true, sub_self, zero_div, lt_irrefl,
          ite_self, List.getLastD_cons]
        exact ih p hchain.2
      · have hqp : p = q := le_antisymm (not_lt.mp hpq) hchain.1
        subst hqp
        simp only [hpq, gt_iff_lt, if_false, sub_self, zero_div, lt_irrefl,
          ite_self, List.getLastD_cons]
        exact ih p hchain.2

/-- Claim C7: on a monotonically non-decreasing series of positive prices
the recorded max drawdown is 0 and the Calmar ratio is returned as 0 (the
division by `|maxDD|` is guarded), never `NaN` or `Infinity`. -/
theorem calculateRiskMetrics_monotone (prices : List ℝ)
    (hmono : List.Chain' (· ≤ ·) prices)
    (hpos : ∀ p ∈ prices, 0 < p) :
    (calculateRiskMetrics prices).max_drawdown = 0 ∧
    (calculateRiskMetrics prices).calmar = 0 := by
  have hdd : maxDrawdown prices = 0 := by
    cases prices with
    | nil => rfl
    | cons p0 rest =>
        unfold maxDrawdown
        rw [List.headD_cons, List.foldl_cons]
        simp only [gt_iff_lt, lt_irrefl, if_false, sub_self, zero_div, ite_self]
        rw [maxDrawdown_fold_aux rest p0 hmono]
  refine ⟨?_, ?_⟩
  · simpa [calculateRiskMetrics] using hdd
  · simp [calculateRiskMetrics, hdd]

/-- Witness for claim C7 at the increasing positive series `[1, 2, 3]`. -/
theorem calculateRiskMetrics_monotone_witness :
    (calculateRiskMetrics [1, 2, 3]).max_drawdown = 0 ∧
    (calculateRiskMetrics [1, 2, 3]).calmar = 0 := by
  refine calculateRiskMetrics_monotone [1, 2, 3] ?_ ?_
  · refine List.chain'_cons.mpr ⟨by norm_num, List.chain'_cons.mpr ⟨by norm_num, ?_⟩⟩
    exact List.chain'_singleton 3
  · intro p hp
    simp only [List.mem_cons, List.not_mem_nil, or_false] at hp
    rcases hp with rfl | rfl | rfl <;> norm_num

/-- Claim C1 (amended): for every row of the daily projection, with any mu,
any `sigma ≥ 0` and `sigma²·day ≤ 15.3664 = 3.92²`, the reported bounds
satisfy `lower ≤ price ≤ upper`.  (The extra variance bound is forced: for
`sigma²·day > 3.92²` the median-adjustment `0.5·variance` exceeds the band
half-width `1.96·sqrt(variance)` and `price > upper`.) -/
theorem generateDailyProjection_band_of_var_le (s0 mu sigma : ℝ) (days : ℕ)
    (e : ProjEntry) (he : e ∈ generateDailyProjection s0 mu sigma days)
    (hσ : 0 ≤ sigma) (hV : sigma * sigma * (e.day : ℝ) ≤ 15.3664) :
    e.lower ≤ e.price ∧ e.price ≤ e.upper := by
  simp only [generateDailyProjection] at he
  rcases List.mem_map.mp he with ⟨i, hi, rfl⟩
  have hd : (projEntry s0 mu sigma (i + 1)).day = i + 1 := rfl
  rw [hd] at hV
  have ht : (0 : ℝ) ≤ ((i + 1 : ℕ) : ℝ) := Nat.cast_nonneg _
  have hV0 : 0 ≤ sigma * sigma * ((i + 1 : ℕ) : ℝ) :=
    mul_nonneg (mul_nonneg hσ hσ) ht
  have hw0 : 0 ≤ Real.sqrt (sigma * sigma * ((i + 1 : ℕ) : ℝ)) :=
    Real.sqrt_nonneg _
  have hww :
      Real.sqrt (sigma * sigma * ((i + 1 : ℕ) : ℝ)) *
        Real.sqrt (sigma * sigma * ((i + 1 : ℕ) : ℝ)) =
      sigma * sigma * ((i + 1 : ℕ) : ℝ) := Real.mul_self_sqrt hV0
  have hsq : Real.sqrt 15.3664 = 3.92 := by
    rw [show (15.3664 : ℝ) = 3.92 ^ 2 by norm_num]
    exact Real.sqrt_sq (by norm_num)
  have hwle : Real.sqrt (sigma * sigma * ((i + 1 : ℕ) : ℝ)) ≤ 3.92 := by
    calc Real.sqrt (sigma * sigma * ((i + 1 : ℕ) : ℝ))
        ≤ Real.sqrt 15.3664 := Real.sqrt_le_sqrt hV
      _ = 3.92 := hsq
  constructor
  · simp only [projEntry]
    apply Real.exp_le_exp.mpr
    nlinarith
  · simp only [projEntry]
    apply Real.exp_le_exp.mpr
    nlinarith [mul_nonneg (sub_nonneg.mpr hwle) hw0]

/-- Claim C1 counterexample: at `s0 = 1`, `mu = 0`, `sigma = 4`, day 1 of a
one-day projection, the reported price `exp(-8 + 8) = 1` strictly exceeds
the reported upper bound `exp(-8 + 1.96·4)`, refuting
`lower ≤ price ≤ upper` for arbitrary finite `mu` and `sigma ≥ 0`. -/
theorem generateDailyProjection_band_cex :
    projEntry 1 0 4 1 ∈ generateDailyProjection 1 0 4 1 ∧
    (projEntry 1 0 4 1).upper < (projEntry 1 0 4 1).price := by
  constructor
  · simp [generateDailyProjection]
  · simp only [projEntry]
    apply Real.exp_lt_exp.mpr
    have hs : Real.sqrt ((4 : ℝ) * 4 * ((1 : ℕ) : ℝ)) = 4 := by
      rw [show (4 : ℝ) * 4 * ((1 : ℕ) : ℝ) = 4 ^ 2 by norm_num]
      exact Real.sqrt_sq (by norm_num)
    rw [hs, Real.log_one]
    norm_num

/-- Spec-side definition (claim C6 wording): the arithmetic mean
`sum / length` of a list of returns. -/
def specArithMean (xs : List ℝ) : ℝ := xs.sum / xs.length

/-- Spec-side definition (claim C6 wording): the sample standard deviation
with divisor `n - 1`, zero when fewer than two points remain. -/
def specSampleStd (xs : List ℝ) : ℝ :=
  if xs.length < 2 then 0
  else
    Real.sqrt ((xs.map (fun x => (x - specArithMean xs) ^ 2)).sum /
      ((xs.length : ℝ) - 1))

/-- The code's `mean` agrees with the spec's arithmetic mean (for the empty
list both give 0, since `0 / 0 = 0` over ℝ). -/
theorem jsMean_eq_specArithMean (xs : List ℝ) : jsMean xs = specArithMean xs := by
  cases xs with
  | nil => simp [jsMean, specArithMean]
  | cons a l => simp [jsMean, specArithMean]

/-- The code's `std` agrees with the spec's sample standard deviation. -/
theorem jsStd_eq_specSampleStd (xs : List ℝ) : jsStd xs = specSampleStd xs := by
  by_cases h : xs.length < 2
  · simp [jsStd, specSampleStd, h]
  · simp [jsStd, specSampleStd, h, jsMean_eq_specArithMean, pow_two]

/-- A `filterMap` whose function always fires is a `map`. -/
theorem filterMap_eq_map_of_forall {α β : Type} (f : α → Option β) (g : α → β)
    (l : List α) (h : ∀ a ∈ l, f a = some (g a)) : l.filterMap f = l.map g := by
  induction l with
  | nil => rfl
  | cons a l ih =>
      simp [List.filterMap_cons, h a (by simp),
        ih (fun b hb => h b (by simp [hb]))]

/-- Claim C6: `estimateParams` returns `mu` equal to the arithmetic mean of
the consecutive log returns and `sigma` equal to their sample standard
deviation with divisor `n-1` (zero for fewer than two returns), and on a
series of positive prices no return is dropped by the finiteness filter, so
the returns are exactly `ln(p_i / p_(i-1))` for consecutive pairs. -/
theorem estimateParams_moments_spec (prices : List ℝ) :
    (estimateParams prices).mu = specArithMean (logReturns prices) ∧
    (estimateParams prices).sigma = specSampleStd (logReturns prices) ∧
    ((logReturns prices).length < 2 → (estimateParams prices).sigma = 0) ∧
    ((∀ p ∈ prices, 0 < p) →
      logReturns prices =
        (prices.zip prices.tail).map (fun pc => Real.log (pc.2 / pc.1))) := by
  refine ⟨jsMean_eq_specArithMean _, jsStd_eq_specSampleStd _, ?_, ?_⟩
  · intro h
    simp [estimateParams, jsStd, h]
  · intro hpos
    unfold logReturns
    refine filterMap_eq_map_of_forall _ _ _ ?_
    intro pc hpc
    have h1 : pc.1 ∈ prices := (List.of_mem_zip hpc).1
    have h2 : pc.2 ∈ prices :=
      List.mem_of_mem_tail (List.of_mem_zip hpc).2
    unfold jsLogRet
    rw [if_pos (div_pos (hpos _ h2) (hpos _ h1))]

/-- Witness for claim C6 at the positive series `[1, e, 1]`. -/
theorem estimateParams_moments_witness :
    (estimateParams [1, Real.exp 1, 1]).mu =
      specArithMean (logReturns [1, Real.exp 1, 1]) ∧
    logReturns [1, Real.exp 1, 1] =
      (([1, Real.exp 1, 1] : List ℝ).zip
        ([1, Real.exp 1, 1] : List ℝ).tail).map
        (fun pc => Real.log (pc.2 / pc.1)) := by
  constructor
  · exact (estimateParams_moments_spec [1, Real.exp 1, 1]).1
  · refine (estimateParams_moments_spec [1, Real.exp 1, 1]).2.2.2 ?_
    intro p hp
    simp only [List.mem_cons, List.not_mem_nil, or_false] at hp
    rcases hp with rfl | rfl | rfl
    · norm_num
    · exact Real.exp_pos 1
    · norm_num

/-- Filtering the identity over a replicated `some` keeps every element. -/
theorem filterMap_id_replicate_some (n : ℕ) (x : ℝ) :
    (List.replicate n (some x)).filterMap id = List.replicate n x := by
  induction n with
  | zero => rfl
  | succ n ih => simp [List.replicate_succ, ih]

/-- Claim C2: after dropping the non-finite raw values, fewer than 60
surviving prices make the forecast fail with the explicit error
`"Not enough data from API"`, and 60 or more surviving prices make parameter
estimation run and succeed (in the real-valued embedding every estimated
`mu`/`sigma` is a real number, hence finite). -/
theorem forecastParams_length_spec (raw : List (Option ℝ)) :
    ((raw.filterMap id).length < 60 →
      forecastParams raw = Except.error "Not enough data from API") ∧
    (60 ≤ (raw.filterMap id).length →
      forecastParams raw = Except.ok (estimateParams (raw.filterMap id))) := by
  constructor
  · intro h
    simp only [forecastParams]
    rw [if_pos h]
  · intro h
    simp only [forecastParams]
    rw [if_neg (by omega)]

/-- Witness for claim C2: the empty series fails, a 60-point all-finite
series succeeds. -/
theorem forecastParams_length_witness :
    forecastParams [] = Except.error "Not enough data from API" ∧
    forecastParams (List.replicate 60 (some 1)) =
      Except.ok (estimateParams ((List.replicate 60 (some (1 : ℝ))).filterMap id)) := by
  constructor
  · exact (forecastParams_length_spec []).1 (by simp)
  · exact (forecastParams_length_spec _).2 (by
      rw [filterMap_id_replicate_some]
      simp)

/-- Witness for the amended claim C1 at `s0 = 1`, `mu = 0`, `sigma = 0`,
day 1. -/
theorem generateDailyProjection_band_witness :
    (projEntry 1 0 0 1).lower ≤ (projEntry 1 0 0 1).price ∧
    (projEntry 1 0 0 1).price ≤ (projEntry 1 0 0 1).upper := by
  refine generateDailyProjection_band_of_var_le 1 0 0 1 (projEntry 1 0 0 1)
    ?_ (by norm_num) ?_
  · simp [generateDailyProjection]
  · norm_num

/-- With zero drift and zero volatility every step of a path leaves the log
price unchanged. -/
theorem mcPathLog_zero (s0 dt : ℝ) (Z : ℕ → ℝ) (t : ℕ) :
    mcPathLog s0 0 0 dt Z t = Real.log s0 := by
  induction t with
  | zero => rfl
  | succ t ih =>
      simp [mcPathLog, ih]

/-- Claim C4: with `mu = 0` and `sigma = 0`, for every horizon, every target,
every positive path count and every draw stream, the Monte Carlo forecast
price equals the starting price `s0` exactly (each per-path log price is
unchanged by every step, so the mean terminal price is `s0`); in particular
the horizon-0⁺ forecast converges to `lastPrice` as the path count grows. -/
theorem runMonteCarlo_zero_drift (s0 target : ℝ) (horizons : List ℝ)
    (paths : ℕ) (Z : ℕ → ℕ → ℕ → ℝ) (hs0 : 0 < s0) (hp : 0 < paths) :
    ∀ f ∈ (runMonteCarlo s0 0 0 horizons target paths Z).1, f.2 = s0 := by
  intro f hf
  simp only [runMonteCarlo] at hf
  rcases List.mem_map.mp hf with ⟨ih, hih, rfl⟩
  show (mcHorizon s0 0 0 ih.2 target paths (Z ih.1)).1 = s0
  simp only [mcHorizon]
  have h1 : ∀ p ∈ List.range paths,
      Real.exp (mcPathLog s0 0 0 (ih.2 / (mcSteps ih.2 : ℝ)) (Z ih.1 p)
        (mcSteps ih.2)) = s0 := by
    intro p _
    rw [mcPathLog_zero, Real.exp_log hs0]
  rw [List.map_congr_left h1, List.map_const', List.length_range,
    List.sum_replicate, nsmul_eq_mul]
  exact mul_div_cancel_left₀ s0 (Nat.cast_ne_zero.mpr hp.ne')

/-- Witness for claim C4 at `s0 = 1`, one path, horizon 1 day. -/
theorem runMonteCarlo_zero_drift_witness :
    ((1 : ℝ), (mcHorizon 1 0 0 1 2 1 (fun _ _ => (0 : ℝ))).1).2 = 1 := by
  refine runMonteCarlo_zero_drift 1 2 [1] 1 (fun _ _ _ => 0)
    (by norm_num) (by norm_num) _ ?_
  show ((1 : ℝ), (mcHorizon 1 0 0 1 2 1 (fun _ _ => (0 : ℝ))).1) ∈
    [((1 : ℝ), (mcHorizon 1 0 0 1 2 1 (fun _ _ => (0 : ℝ))).1)]
  exact List.mem_singleton.mpr rfl

/-- The hit flag after `n` steps is set exactly when some post-step price
reached the target. -/
theorem mcPathHit_iff_aux (s0 mu sigma dt target : ℝ) (Z : ℕ → ℝ) (n : ℕ) :
    mcPathHit s0 mu sigma dt target Z n = true ↔
      ∃ t, 0 < t ∧ t ≤ n ∧ target ≤ Real.exp (mcPathLog s0 mu sigma dt Z t) := by
  induction n with
  | zero =>
      simp only [mcPathHit]
      constructor
      · intro h
        exact absurd h (by simp)
      · rintro ⟨t, ht, hle, _⟩
        omega
  | succ n ih =>
      simp only [mcPathHit, Bool.or_eq_true, decide_eq_true_eq, ih]
      constructor
      · rintro (⟨t, ht, hle, hx⟩ | hx)
        · exact ⟨t, ht, Nat.le_succ_of_le hle, hx⟩
        · exact ⟨n + 1, Nat.succ_pos n, le_refl _, hx⟩
      · rintro ⟨t, ht, hle, hx⟩
        rcases Nat.lt_or_ge t (n + 1) with h | h
        · exact Or.inl ⟨t, ht, Nat.lt_succ_iff.mp h, hx⟩
        · have heq : t = n + 1 := le_antisymm hle h
          subst heq
          exact Or.inr hx

/-- `Math.round((1/24)·24) = 1`, so the 1-hour horizon runs a single step. -/
theorem mcSteps_hour : mcSteps ((1 : ℝ) / 24) = 1 := by
  unfold mcSteps jsRound
  rw [show ((1 : ℝ) / 24 * 24 + 1 / 2) = 3 / 2 by norm_num]
  rw [show ⌊(3 / 2 : ℝ)⌋ = 1 by
    rw [Int.floor_eq_iff]
    norm_num]
  rfl

/-- On the 1-hour horizon with `s0 = target = 1`, `mu = 0`, `sigma = 1` and
every draw equal to `-1`, no path ever hits the target, so the reported hit
probability is 0. -/
theorem mcHorizon_down_demo :
    (mcHorizon 1 0 1 ((1 : ℝ) / 24) 1 5000 (fun _ _ => (-1 : ℝ))).2 = 0 := by
  simp only [mcHorizon, mcSteps_hour]
  have hlog : mcPathLog 1 0 1 ((1 : ℝ) / 24 / ((1 : ℕ) : ℝ)) (fun _ => (-1 : ℝ)) 1 < 0 := by
    simp only [mcPathLog, Real.log_one]
    have hs : 0 ≤ Real.sqrt ((1 : ℝ) / 24 / ((1 : ℕ) : ℝ)) := Real.sqrt_nonneg _
    nlinarith
  have hhit : ∀ p : ℕ,
      mcPathHit 1 0 1 ((1 : ℝ) / 24 / ((1 : ℕ) : ℝ)) 1 (fun _ => (-1 : ℝ)) 1 = false := by
    intro p
    simp only [mcPathHit, Bool.false_or]
    rw [decide_eq_false_iff_not]
    rw [not_le]
    calc Real.exp (mcPathLog 1 0 1 ((1 : ℝ) / 24 / ((1 : ℕ) : ℝ)) (fun _ => (-1 : ℝ)) 1)
        < Real.exp 0 := Real.exp_lt_exp.mpr hlog
      _ = 1 := Real.exp_zero
  rw [List.filter_eq_nil_iff.mpr (fun p _ => by rw [hhit p]; simp)]
  simp

/-- Claim C9: the Monte Carlo hit detection only tests post-step prices —
the flag after `n` steps is set iff the simulated price is `≥ target` after
at least one of the first `n` steps, never testing the initial price — and
consequently with `s0 = target = 1` (starting at the target), `mu = 0`,
`sigma = 1` and a draw stream that pushes every path down on its single
step, the reported hit probability is strictly less than 1. -/
theorem mcPathHit_post_step_only :
    (∀ (s0 mu sigma dt target : ℝ) (Z : ℕ → ℝ) (n : ℕ),
      mcPathHit s0 mu sigma dt target Z n = true ↔
        ∃ t, 0 < t ∧ t ≤ n ∧
          target ≤ Real.exp (mcPathLog s0 mu sigma dt Z t)) ∧
    (mcHorizon 1 0 1 ((1 : ℝ) / 24) 1 5000 (fun _ _ => (-1 : ℝ))).2 < 1 := by
  constructor
  · exact mcPathHit_iff_aux
  · rw [mcHorizon_down_demo]
    norm_num

/-- The first match returned by `find?` on a pairwise-ordered list is
related to every other match. -/
theorem find?_first {α : Type} (p : α → Bool) (l : List α) (a : α)
    (R : α → α → Prop) (hfind : l.find? p = some a)
    (hpair : List.Pairwise R l) :
    ∀ b ∈ l, p b = true → R a b ∨ a = b := by
  induction l with
  | nil => cases hfind
  | cons x l ih =>
      by_cases hx : p x = true
      · rw [List.find?_cons_of_pos _ hx] at hfind
        injection hfind with h
        subst h
        intro b hb hpb
        rcases List.mem_cons.mp hb with rfl | hb'
        · exact Or.inr rfl
        · exact Or.inl ((List.pairwise_cons.mp hpair).1 b hb')
      · rw [List.find?_cons_of_neg _ hx] at hfind
        intro b hb hpb
        rcases List.mem_cons.mp hb with rfl | hb'
        · exact absurd hpb hx
        · exact ih hfind (List.pairwise_cons.mp hpair).2 b hb' hpb

/-- Claim C8: target-date prediction selects the first listed day whose
expected price reaches the target; when no day of the projection qualifies
it returns null date, null days-to-target and probability exactly 0, for
every draw stream (no Monte Carlo run affects the result); on a projection
whose days are strictly increasing (as `generateDailyProjection` produces,
third conjunct) the selected day is the least qualifying day. -/
theorem predictTargetDate_scan (projection : List ProjEntry)
    (target s0 mu sigma : ℝ) (Z : ℕ → ℕ → ℝ) :
    ((∀ e ∈ projection, e.price < target) →
      predictTargetDate projection target s0 mu sigma Z =
        { targetDate := none, daysToTarget := none, probability := 0 }) ∧
    (List.Pairwise (fun a b : ProjEntry => a.day < b.day) projection →
      ∀ d, (predictTargetDate projection target s0 mu sigma Z).daysToTarget =
          some d →
        (∃ e ∈ projection, e.day = d ∧ target ≤ e.price) ∧
          ∀ e ∈ projection, target ≤ e.price → d ≤ e.day) ∧
    (∀ (s0' mu' sigma' : ℝ) (days : ℕ),
      List.Pairwise (fun a b : ProjEntry => a.day < b.day)
        (generateDailyProjection s0' mu' sigma' days)) := by
  refine ⟨?_, ?_, ?_⟩
  · intro h
    have hnone : projection.find? (fun p => decide (target ≤ p.price)) = none :=
      List.find?_eq_none.mpr (fun x hx => by simp [not_le.mpr (h x hx)])
    simp only [predictTargetDate, hnone]
  · intro hpair d hd
    cases hfind : projection.find? (fun p => decide (target ≤ p.price)) with
    | none =>
        simp only [predictTargetDate, hfind] at hd
        cases hd
    | some c =>
        simp only [predictTargetDate, hfind] at hd
        injection hd with hd'
        subst hd'
        have hcmem : c ∈ projection := List.mem_of_find?_eq_some hfind
        have hcpb := List.find?_some hfind
        have hcp : target ≤ c.price := of_decide_eq_true hcpb
        refine ⟨⟨c, hcmem, rfl, hcp⟩, ?_⟩
        intro e he hpe
        rcases find?_first _ projection c _ hfind hpair e he (by simp [hpe])
          with h | h
        · exact le_of_lt h
        · rw [h]
  · intro s0' mu' sigma' days
    unfold generateDailyProjection
    rw [List.pairwise_map]
    have hlt : List.Pairwise (· < ·) (List.range days) := List.pairwise_lt_range days
    exact hlt.imp (fun hij => by
      show (projEntry s0' mu' sigma' _).day < (projEntry s0' mu' sigma' _).day
      simpa [projEntry] using Nat.succ_lt_succ hij)

/-- Witness for claim C8 on the empty projection with target 2. -/
theorem predictTargetDate_scan_witness :
    predictTargetDate [] 2 1 0 0 (fun _ _ => 0) =
      { targetDate := none, daysToTarget := none, probability := 0 } :=
  (predictTargetDate_scan [] 2 1 0 0 (fun _ _ => 0)).1 (by simp)

end
